import Mathlib

/-!
Verification development for the employee-record store of
`employee_manager.py` (Employee Management System).

The Python source is shallowly embedded: every pure validation function is a
Lean function of the same name, the in-memory dictionary of records becomes a
list of `Employee` values keyed by their `id` field (the program maintains
`key = record['ID']` at every write site), and the CSV file becomes a
`FileState` holding the data rows (the fixed header row is implicit; the
`csv` module round-trips arbitrary cell strings, so a row is modelled as its
five cell strings).

Python `float` values are modelled by `PyFloat`: an exact rational for finite
values, plus `inf`, `-inf` and `nan`.  `float(string)` is modelled by
`pyFloatOfString` implementing the numeric-literal grammar (optional sign,
digits with at most one point, optional exponent, underscores between digits,
`inf`/`infinity`/`nan` case-insensitively, surrounding whitespace ignored).
Finite values are kept as exact rationals: IEEE-754 rounding, overflow to
infinity and non-ASCII digits are not modelled, since no claim distinguishes
them.  Comparisons mirror IEEE semantics (`nan` compares false).
-/

namespace EmployeeManager

/-! ### Characters and Python string helpers -/

/-- Whitespace characters removed by Python `str.strip()` / `float()`
(ASCII subset). -/
def isPyWs (c : Char) : Bool :=
  c = ' ' || c = '\t' || c = '\n' || c = '\r' || c = '\x0b' || c = '\x0c'

/-- Strip leading and trailing whitespace from a character list. -/
def trimChars (l : List Char) : List Char :=
  ((l.dropWhile isPyWs).reverse.dropWhile isPyWs).reverse

/-- Python `str.strip()`. -/
def pyStrip (s : String) : String := ⟨trimChars s.data⟩

/-- Python `str.upper()` (ASCII model). -/
def pyUpper (s : String) : String := ⟨s.data.map Char.toUpper⟩

/-! ### Python floats -/

/-- A Python `float` value: exact rational for finite values, plus the three
non-finite values. -/
inductive PyFloat where
  | finite (q : ℚ)
  | inf
  | neginf
  | nan
deriving DecidableEq

/-- Python `<=` on floats: `nan` compares false with everything. -/
def pyLe : PyFloat → PyFloat → Bool
  | .nan, _ => false
  | _, .nan => false
  | .neginf, _ => true
  | .finite _, .neginf => false
  | .inf, .neginf => false
  | .finite a, .finite b => a ≤ b
  | .finite _, .inf => true
  | .inf, .finite _ => false
  | .inf, .inf => true

/-- Python `<` on floats: `nan` compares false with everything. -/
def pyLt : PyFloat → PyFloat → Bool
  | .nan, _ => false
  | _, .nan => false
  | .neginf, .neginf => false
  | .neginf, _ => true
  | .finite _, .neginf => false
  | .finite a, .finite b => a < b
  | .finite _, .inf => true
  | .inf, _ => false

/-- Digit character for a value below ten. -/
def digitChar (n : Nat) : Char := Char.ofNat (48 + n)

/-- Value of a digit character. -/
def digitVal (c : Char) : Nat := c.toNat - 48

/-- Numeric value of a digit string (most significant first). -/
def natFromDigits (l : List Char) : Nat :=
  l.foldl (fun a c => 10 * a + digitVal c) 0

/-- Decimal digits, fuel-recursive so that the kernel can evaluate it
(`fuel > n` always suffices). -/
def printNatAux : Nat → Nat → List Char
  | 0, _ => []
  | fuel + 1, n =>
    if n < 10 then [digitChar n]
    else printNatAux fuel (n / 10) ++ [digitChar (n % 10)]

/-- Decimal digits of a natural number (most significant first). -/
def printNatDigits (n : Nat) : List Char := printNatAux (n + 1) n

/-- Split a leading `+`/`-` sign off a token, as Python float parsing does. -/
def splitSign (l : List Char) : Int × List Char :=
  match l with
  | [] => (1, [])
  | c :: r => if c = '+' then (1, r) else if c = '-' then (-1, r) else (1, l)

/-- Split a character list at the first character satisfying `p`;
the separator itself is dropped, `none` if no separator occurs. -/
def splitFirst (p : Char → Bool) : List Char → List Char × Option (List Char)
  | [] => ([], none)
  | c :: rest =>
    if p c then ([], some rest)
    else
      let ab := splitFirst p rest
      (c :: ab.1, ab.2)

/-- Python numeric literals allow `_` only between two digits. -/
def underscoresOk (l : List Char) : Bool :=
  (List.range l.length).all fun i =>
    !(l.getD i ' ' = '_') ||
      (decide (0 < i) && (l.getD (i - 1) ' ').isDigit && (l.getD (i + 1) ' ').isDigit)

/-- Parse an unsigned numeric token (no sign, no underscores):
`digits [. digits] [(e|E) [sign] digits]`, at least one mantissa digit. -/
def pyFloatParseCore (l : List Char) : Option ℚ :=
  let me := splitFirst (fun c => c = 'e' || c = 'E') l
  let eo : Option Int :=
    match me.2 with
    | none => some 0
    | some ed =>
      let se := splitSign ed
      if !(se.2 = []) && se.2.all Char.isDigit then
        some (se.1 * (natFromDigits se.2 : Int))
      else none
  match eo with
  | none => none
  | some ex =>
    let ifp := splitFirst (fun c => c = '.') me.1
    let ip := ifp.1
    let fp := (ifp.2).getD []
    if fp.any (fun c => c = '.') then none
    else if ip.all Char.isDigit && fp.all Char.isDigit && !(ip = [] && fp = []) then
      let d := natFromDigits (ip ++ fp)
      let e2 : Int := ex - fp.length
      if 0 ≤ e2 then some (mkRat (d * 10 ^ e2.toNat) 1)
      else some (mkRat d (10 ^ (-e2).toNat))
    else none

/-- Python `float(string)`: strip whitespace, optional sign, then either
`inf`/`infinity`/`nan` (case-insensitive) or a numeric literal.
`none` models the `ValueError` branch. -/
def pyFloatOfString (s : String) : Option PyFloat :=
  let t := trimChars s.data
  if t = [] then none
  else
    let sr := splitSign t
    let sgn := sr.1
    let rest := sr.2
    let low := rest.map Char.toLower
    if low = "inf".data || low = "infinity".data then
      some (if sgn = 1 then PyFloat.inf else PyFloat.neginf)
    else if low = "nan".data then some PyFloat.nan
    else if rest = [] then none
    else if underscoresOk rest then
      match pyFloatParseCore (rest.filter (fun c => !(c = '_'))) with
      | none => none
      | some q => some (PyFloat.finite (if sgn = 1 then q else -q))
    else none

/-- Serialization of a float for the CSV `Salary` cell, modelling Python
`str(float)`.  Python guarantees `float(str(x)) == x`; the model keeps that
law by printing an exact form: non-finite values print as `inf`/`-inf`/`nan`,
and a finite value `q` prints its scaled integer with a decimal exponent
(`str` prints a positional/scientific decimal with the same reparse value;
the exact digit sequence is not observable by any claim). -/
def floatRepr : PyFloat → String
  | .inf => "inf"
  | .neginf => "-inf"
  | .nan => "nan"
  | .finite q =>
    let k := q.den
    let n := q.num.natAbs * 10 ^ k / q.den
    ⟨(if q.num < 0 then ['-'] else []) ++
      printNatDigits n ++ ['e', '-'] ++ printNatDigits k⟩

/-- A finite value is exactly serializable in decimal iff its reduced
denominator divides a power of ten; every IEEE-754 double satisfies this
(doubles are dyadic rationals).  Non-finite values always round-trip. -/
def salaryOk : PyFloat → Bool
  | .finite q => 10 ^ q.den % q.den = 0
  | _ => true

/-! ### Validation functions (`employee_manager.py` lines 100-152) -/

/-- `validate_email`: empty check, then the anchored regex
`[a-zA-Z0-9._%+-]+@[a-zA-Z0-9.-]+\.[a-zA-Z]\x7b2,\x7d` on the stripped value. -/
def isLocalChar (c : Char) : Bool :=
  c.isAlpha || c.isDigit || c = '.' || c = '_' || c = '%' || c = '+' || c = '-'

/-- Character class `[a-zA-Z0-9.-]` of the regex domain part. -/
def isDomainChar (c : Char) : Bool :=
  c.isAlpha || c.isDigit || c = '.' || c = '-'

/-- Full match of `[a-zA-Z0-9.-]+\.[a-zA-Z]\x7b2,\x7d` against the part after
`@`: some split point yields a nonempty domain, a literal dot, and a top-level
segment of at least two letters (regex backtracking = existence of a split). -/
def emailTailOk (rest : List Char) : Bool :=
  (List.range rest.length).any fun i =>
    match rest.drop i with
    | '.' :: t =>
      !(rest.take i = []) && (rest.take i).all isDomainChar &&
        t.all Char.isAlpha && decide (2 ≤ t.length)
    | _ => false

/-- Full match of the whole email regex: the classes on either side of `@`
exclude `@`, so the first `@` is the unique separator. -/
def emailMatches (l : List Char) : Bool :=
  let lr := splitFirst (fun c => c = '@') l
  match lr.2 with
  | none => false
  | some rest =>
    !(lr.1 = []) && lr.1.all isLocalChar && !(rest.any (fun c => c = '@')) &&
      emailTailOk rest

/-- `validate_email(email)` (source lines 100-108). -/
def validate_email (email : String) : Bool × Option String :=
  if email = "" || pyStrip email = "" then (false, some "Email cannot be empty")
  else if emailMatches (pyStrip email).data then (true, none)
  else (false, some "Invalid email format")

/-- `validate_salary(salary)` (source lines 111-122): the `try` models
`float(salary)`, the guard models `salary_float <= 0`. -/
def validate_salary (salary : String) : Bool × Option PyFloat × Option String :=
  if salary = "" || pyStrip salary = "" then
    (false, none, some "Salary cannot be empty")
  else
    match pyFloatOfString salary with
    | some v =>
      if pyLe v (.finite 0) then (false, none, some "Salary must be greater than 0")
      else (true, some v, none)
    | none => (false, none, some "Salary must be a valid number")

/-- `validate_required_field(value, field_name)` (source lines 125-129). -/
def validate_required_field (value fieldName : String) : Bool × Option String :=
  if value = "" || pyStrip value = "" then
    (false, some (fieldName ++ " cannot be empty"))
  else (true, none)

/-- `validate_employee_id(emp_id, existing_ids)` (source lines 132-140). -/
def validate_employee_id (empId : String) (existingIds : List String) :
    Bool × Option String :=
  if empId = "" || pyStrip empId = "" then
    (false, some "Employee ID cannot be empty")
  else if pyStrip empId ∈ existingIds then
    (false, some ("Employee with ID " ++ empId ++ " already exists"))
  else (true, none)

/-- `validate_unique_email(email, existing_emails)` (source lines 143-152). -/
def validate_unique_email (email : String) (existingEmails : List String) :
    Bool × Option String :=
  match validate_email email with
  | (false, err) => (false, err)
  | (true, _) =>
    if pyStrip email ∈ existingEmails then
      (false, some ("Email " ++ email ++ " is already registered to another employee"))
    else (true, none)

/-! ### Data model -/

/-- One employee record: the dictionary
`{ID, Name, Position, Salary, Email}` stored per key. -/
structure Employee where
  id : String
  name : String
  position : String
  salary : PyFloat
  email : String
deriving DecidableEq

/-- The in-memory mapping `self._employees`.  Every write site of the program
stores a record whose `ID` field equals its dictionary key, so the dict is
modelled as a list of records keyed by their `id` field, in insertion order. -/
abbrev Store := List Employee

/-- Dictionary lookup `self._employees[emp_id]` / `emp_id in self._employees`. -/
def findById (st : Store) (i : String) : Option Employee :=
  st.find? (fun e => e.id = i)

/-- Dictionary assignment `self._employees[emp_id] = record`: replace in
place when the key exists, append otherwise (Python dict order semantics). -/
def insertEmp (st : Store) (e : Employee) : Store :=
  if st.any (fun r => r.id = e.id) then
    st.map (fun r => if r.id = e.id then e else r)
  else st ++ [e]

/-- `del self._employees[emp_id]`. -/
def eraseEmp (st : Store) (i : String) : Store :=
  st.filter (fun r => !(r.id = i))

/-! ### CSV model -/

/-- One data row of the backing file: the five cell strings under the header
`ID,Name,Position,Salary,Email`.  The `csv` module round-trips arbitrary cell
strings (quoting), so cells are modelled verbatim. -/
structure CsvRow where
  idF : String
  nameF : String
  positionF : String
  salaryF : String
  emailF : String
deriving DecidableEq

/-- State of the backing file: absent (`FileNotFoundError` on open),
unreadable (any other `open` failure), or present with its data rows
(the fixed header row is implicit in `present`). -/
inductive FileState where
  | absent
  | unreadable
  | present (rows : List CsvRow)
deriving DecidableEq

/-- The row loop of `_load_from_csv` (source lines 180-190): skip rows with a
falsy `ID`; `float(row['Salary'])` raising `ValueError` aborts the loop, and
the records assigned before the bad row remain in the mapping. -/
def loadRows : List CsvRow → Store → Store
  | [], acc => acc
  | r :: rest, acc =>
    if r.idF = "" then loadRows rest acc
    else
      match pyFloatOfString r.salaryF with
      | none => acc
      | some v =>
        loadRows rest (insertEmp acc ⟨r.idF, r.nameF, r.positionF, v, r.emailF⟩)

/-- `_load_from_csv` (source lines 173-194) together with its effect on the
file: a present file is read row by row; an absent file is created with only
the header (`_create_csv_file`, lines 210-218); any other open failure prints
the error and leaves the fresh empty mapping. -/
def loadFromCsv : FileState → Store × FileState
  | .present rows => (loadRows rows [], .present rows)
  | .absent => ([], .present [])
  | .unreadable => ([], .unreadable)

/-- Python string `<=`: lexicographic on code points. -/
def charListLe : List Char → List Char → Bool
  | [], _ => true
  | _ :: _, [] => false
  | a :: as, b :: bs =>
    if a.toNat < b.toNat then true
    else if a.toNat = b.toNat then charListLe as bs
    else false

/-- Python string `<=` on strings. -/
def strLe (a b : String) : Bool := charListLe a.data b.data

/-- Insertion sort step by `ID`, modelling `sorted(self._employees.keys())`
(code-point lexicographic order on strings). -/
def insertSorted (e : Employee) : List Employee → List Employee
  | [] => [e]
  | x :: xs => if strLe e.id x.id then e :: x :: xs else x :: insertSorted e xs

/-- `sorted(self._employees.keys())`: the records in ascending `ID` order. -/
def sortById (st : Store) : List Employee :=
  st.foldr insertSorted []

/-- The rows `_save_to_csv` writes (source lines 196-208): one row per record
in ascending `ID` order, the salary cell via `str(float)`. -/
def saveRows (st : Store) : List CsvRow :=
  (sortById st).map fun e => ⟨e.id, e.name, e.position, floatRepr e.salary, e.email⟩

/-- `_save_to_csv` with its boolean result: on success the whole file is
rewritten; on an I/O failure (`writeOk = false`) the error is printed and
`False` returned, the file keeping its previous content. -/
def saveToCsv (writeOk : Bool) (st : Store) (fs : FileState) : FileState × Bool :=
  if writeOk then (.present (saveRows st), true) else (fs, false)

/-! ### CRUD operations

Each interactive prompt `input(...).strip()` is modelled by stripping the
supplied raw string.  `_prompt_until_valid` re-prompts until the validator
passes; an operation outcome of `none` models the session in which the
operator's supplied value is rejected (the mutation never happens). -/

/-- `_get_optional_input` for string-valued fields (source lines 231-241):
blank keeps the current value, otherwise the validator must accept. -/
def getOptionalStr (raw current : String) (valid : String → Bool) : Option String :=
  let v := pyStrip raw
  if v = "" then some current
  else if valid v then some v else none

/-- `_get_optional_input` with `validate_salary` (3-tuple validator, so the
converted float is returned). -/
def getOptionalSalary (raw : String) (current : PyFloat) : Option PyFloat :=
  let v := pyStrip raw
  if v = "" then some current
  else
    match validate_salary v with
    | (true, some x, _) => some x
    | _ => none

/-- The validation-and-mutation core of `add_employee` (source lines
245-289), one supplied value per prompt: validate the ID against current
keys, the name and position as required fields, the salary, and the email
against all current emails; on success assign the new record. -/
def addEmployee (st : Store) (idRaw nameRaw posRaw salRaw emailRaw : String) :
    Option Store :=
  let empId := pyStrip idRaw
  if (validate_employee_id empId (st.map (fun e => e.id))).1 then
    let name := pyStrip nameRaw
    if (validate_required_field name "Name").1 then
      let position := pyStrip posRaw
      if (validate_required_field position "Position").1 then
        match validate_salary (pyStrip salRaw) with
        | (true, some v, _) =>
          let existingEmails := st.map (fun e => e.email)
          let email := pyStrip emailRaw
          if (validate_unique_email email existingEmails).1 then
            some (insertEmp st ⟨empId, name, position, v, email⟩)
          else none
        | _ => none
      else none
    else none
  else none

/-- The validation-and-mutation core of `update_employee` (source lines
313-377): early return on an empty store or unknown ID, each field optional
(blank keeps the current value), email uniqueness checked against all other
records, then the record is reassigned under its key. -/
def updateEmployee (st : Store) (idRaw nameRaw posRaw salRaw emailRaw : String) :
    Option Store :=
  if st.isEmpty then none
  else
    let empId := pyStrip idRaw
    match findById st empId with
    | none => none
    | some employee =>
      match getOptionalStr nameRaw employee.name
          (fun v => (validate_required_field v "Name").1) with
      | none => none
      | some name =>
        match getOptionalStr posRaw employee.position
            (fun v => (validate_required_field v "Position").1) with
        | none => none
        | some position =>
          match getOptionalSalary salRaw employee.salary with
          | none => none
          | some salary =>
            let existingEmails :=
              (st.filter (fun e => !(e.id = empId))).map (fun e => e.email)
            match getOptionalStr emailRaw employee.email
                (fun v => (validate_unique_email v existingEmails).1) with
            | none => none
            | some email =>
              some (insertEmp st ⟨empId, name, position, salary, email⟩)

/-- The mutation core of `delete_employee` (source lines 379-413): early
return on an empty store or unknown ID; the record is removed exactly when
the stripped, uppercased confirmation equals `YES`. -/
def deleteEmployee (st : Store) (idRaw confirmRaw : String) : Store :=
  if st.isEmpty then st
  else
    let empId := pyStrip idRaw
    if (findById st empId).isSome then
      if pyUpper (pyStrip confirmRaw) = "YES" then eraseEmp st empId else st
    else st

/-- Outcome of one full mutating operation: the in-memory mapping, the
backing file, and whether the success message was printed. -/
structure OpResult where
  store : Store
  file : FileState
  reportedSuccess : Bool
deriving DecidableEq

/-- Full `add_employee` including persistence (source lines 279-289): after
the mutation, `self._save_to_csv()` is called and its boolean result is
discarded; the success message is printed unconditionally. -/
def addEmployeeWithSave (writeOk : Bool) (st : Store) (fs : FileState)
    (idRaw nameRaw posRaw salRaw emailRaw : String) : Option OpResult :=
  match addEmployee st idRaw nameRaw posRaw salRaw emailRaw with
  | none => none
  | some st' => some ⟨st', (saveToCsv writeOk st' fs).1, true⟩

/-- Full `update_employee` including persistence (source lines 367-377):
the `_save_to_csv()` result is discarded, success reported regardless. -/
def updateEmployeeWithSave (writeOk : Bool) (st : Store) (fs : FileState)
    (idRaw nameRaw posRaw salRaw emailRaw : String) : Option OpResult :=
  match updateEmployee st idRaw nameRaw posRaw salRaw emailRaw with
  | none => none
  | some st' => some ⟨st', (saveToCsv writeOk st' fs).1, true⟩

/-- Full `delete_employee` including persistence (source lines 404-413):
on a confirmed deletion `_save_to_csv()` is called with the result discarded
and the deletion message printed. -/
def deleteEmployeeWithSave (writeOk : Bool) (st : Store) (fs : FileState)
    (idRaw confirmRaw : String) : OpResult :=
  if st.isEmpty then ⟨st, fs, false⟩
  else
    let empId := pyStrip idRaw
    if (findById st empId).isSome then
      if pyUpper (pyStrip confirmRaw) = "YES" then
        let st' := eraseEmp st empId
        ⟨st', (saveToCsv writeOk st' fs).1, true⟩
      else ⟨st, fs, false⟩
    else ⟨st, fs, false⟩

/-! ### Operation sequences (for the store invariant) -/

/-- One mutating menu operation with the operator's supplied values. -/
inductive Op where
  | add (idRaw nameRaw posRaw salRaw emailRaw : String)
  | update (idRaw nameRaw posRaw salRaw emailRaw : String)
  | del (idRaw confirmRaw : String)

/-- Apply one operation to the mapping; a rejected `add`/`update` leaves the
mapping unchanged. -/
def applyOp (st : Store) : Op → Store
  | .add i n p s e => (addEmployee st i n p s e).getD st
  | .update i n p s e => (updateEmployee st i n p s e).getD st
  | .del i c => deleteEmployee st i c

/-- Run a sequence of operations from the empty store. -/
def runOps (ops : List Op) : Store :=
  ops.foldl applyOp []

/-! ### The data-model invariants (spec section 3) -/

/-- Data-model invariants of the store: unique nonempty identifiers, unique
emails, nonempty name/position/email, salary strictly greater than zero, and
salary an actual (decimally exact) float value. -/
def wfStore (st : Store) : Prop :=
  (st.map (fun e => e.id)).Nodup ∧ (st.map (fun e => e.email)).Nodup ∧
    ∀ e ∈ st, e.id ≠ "" ∧ e.name ≠ "" ∧ e.position ≠ "" ∧ e.email ≠ "" ∧
      pyLt (.finite 0) e.salary = true ∧ salaryOk e.salary = true

instance (st : Store) : Decidable (wfStore st) := by
  unfold wfStore; infer_instance

/-! ### Lemmas: digits and printing -/

lemma digitChar_props :
    ∀ m, m < 10 →
      (digitChar m).isDigit = true ∧ isPyWs (digitChar m) = false ∧
      Char.toLower (digitChar m) = digitChar m ∧ digitVal (digitChar m) = m ∧
      digitChar m ≠ '+' ∧ digitChar m ≠ '-' ∧ digitChar m ≠ 'e' ∧
      digitChar m ≠ 'E' ∧ digitChar m ≠ '.' ∧ digitChar m ≠ '_' ∧
      digitChar m ≠ '@' ∧ Char.toLower (digitChar m) ≠ 'i' ∧
      Char.toLower (digitChar m) ≠ 'n' := by decide

lemma mem_printNatAux {fuel n : Nat} (h : n < fuel) :
    ∀ c ∈ printNatAux fuel n, ∃ m, m < 10 ∧ c = digitChar m := by
  induction fuel generalizing n with
  | zero => omega
  | succ f ih =>
    intro c hc
    by_cases h10 : n < 10
    · simp only [printNatAux, if_pos h10, List.mem_singleton] at hc
      exact ⟨n, h10, hc⟩
    · simp only [printNatAux, if_neg h10, List.mem_append, List.mem_singleton] at hc
      rcases hc with hc | hc
      · exact ih (by omega) c hc
      · exact ⟨n % 10, by omega, hc⟩

lemma printNatAux_ne_nil {fuel n : Nat} (h : n < fuel) :
    printNatAux fuel n ≠ [] := by
  cases fuel with
  | zero => omega
  | succ f =>
    by_cases h10 : n < 10
    · simp [printNatAux, if_pos h10]
    · simp [printNatAux, if_neg h10]

lemma natFromDigits_append_singleton (xs : List Char) (c : Char) :
    natFromDigits (xs ++ [c]) = 10 * natFromDigits xs + digitVal c := by
  simp [natFromDigits, List.foldl_append]

lemma natFromDigits_printNatAux {fuel n : Nat} (h : n < fuel) :
    natFromDigits (printNatAux fuel n) = n := by
  induction fuel generalizing n with
  | zero => omega
  | succ f ih =>
    by_cases h10 : n < 10
    · simp only [printNatAux, if_pos h10, natFromDigits, List.foldl_cons,
        List.foldl_nil]
      have := (digitChar_props n h10).2.2.2.1
      omega
    · simp only [printNatAux, if_neg h10, natFromDigits_append_singleton]
      rw [ih (by omega)]
      have := (digitChar_props (n % 10) (by omega)).2.2.2.1
      omega

lemma mem_printNatDigits {n : Nat} :
    ∀ c ∈ printNatDigits n, ∃ m, m < 10 ∧ c = digitChar m :=
  mem_printNatAux (Nat.lt_succ_self n)

lemma printNatDigits_ne_nil (n : Nat) : printNatDigits n ≠ [] :=
  printNatAux_ne_nil (Nat.lt_succ_self n)

lemma natFromDigits_printNatDigits (n : Nat) :
    natFromDigits (printNatDigits n) = n :=
  natFromDigits_printNatAux (Nat.lt_succ_self n)

lemma printNatDigits_all_digit (n : Nat) :
    (printNatDigits n).all Char.isDigit = true := by
  rw [List.all_eq_true]
  intro c hc
  obtain ⟨m, hm, rfl⟩ := mem_printNatDigits c hc
  exact (digitChar_props m hm).1

/-! ### Lemmas: stripping -/

lemma dropWhile_eq_self_of {p : Char → Bool} {l : List Char}
    (h : ∀ c ∈ l, p c = false) : l.dropWhile p = l := by
  cases l with
  | nil => rfl
  | cons a t => simp [List.dropWhile, h a (List.mem_cons_self a t)]

lemma trimChars_eq_self {l : List Char} (h : ∀ c ∈ l, isPyWs c = false) :
    trimChars l = l := by
  unfold trimChars
  rw [dropWhile_eq_self_of h, dropWhile_eq_self_of, List.reverse_reverse]
  intro c hc
  exact h c (List.mem_reverse.mp hc)

lemma dropWhile_head_false {p : Char → Bool} {l r : List Char} {c : Char}
    (h : l.dropWhile p = c :: r) : p c = false := by
  induction l with
  | nil => simp [List.dropWhile] at h
  | cons a t ih =>
    by_cases hpa : p a
    · simp only [List.dropWhile, hpa] at h
      exact ih h
    · simp only [List.dropWhile, hpa] at h
      cases h
      simpa using hpa

lemma dropWhile_dropWhile (p : Char → Bool) (l : List Char) :
    (l.dropWhile p).dropWhile p = l.dropWhile p := by
  cases hl : l.dropWhile p with
  | nil => rfl
  | cons c r =>
    have hc := dropWhile_head_false hl
    simp [List.dropWhile, hc]

lemma trimChars_idem (l : List Char) : trimChars (trimChars l) = trimChars l := by
  unfold trimChars
  set A := l.dropWhile isPyWs with hA
  set B := A.reverse.dropWhile isPyWs with hB
  rcases hBe : B with _ | ⟨b, B'⟩
  · simp [List.dropWhile]
  · have hBne : B.reverse ≠ [] := by simp [hBe]
    obtain ⟨c, r, hcr⟩ := List.exists_cons_of_ne_nil hBne
    have hsuff : B <:+ A.reverse := hB ▸ List.dropWhile_suffix isPyWs
    obtain ⟨t, ht⟩ := hsuff
    have hAeq : A = B.reverse ++ t.reverse := by
      have := congrArg List.reverse ht
      simpa using this.symm
    have hpc : isPyWs c = false := by
      apply dropWhile_head_false (l := l) (r := r ++ t.reverse)
      rw [← hA, hAeq, hcr]; simp
    rw [← hBe, hcr]
    have hstep : (c :: r).dropWhile isPyWs = c :: r := by
      simp [List.dropWhile_cons, hpc]
    rw [hstep, ← hcr, List.reverse_reverse, hB, dropWhile_dropWhile, ← hB, hcr]

lemma pyStrip_idem (s : String) : pyStrip (pyStrip s) = pyStrip s := by
  unfold pyStrip
  exact congrArg String.mk (trimChars_idem s.data)

lemma pyStrip_data (s : String) : (pyStrip s).data = trimChars s.data := rfl

lemma pyStrip_mk (l : List Char) : pyStrip ⟨l⟩ = ⟨trimChars l⟩ := rfl

/-! ### Lemmas: token splitting -/

lemma splitFirst_of_forall {p : Char → Bool} {l : List Char}
    (h : ∀ c ∈ l, p c = false) : splitFirst p l = (l, none) := by
  induction l with
  | nil => rfl
  | cons a t ih =>
    have ha := h a (List.mem_cons_self a t)
    simp only [splitFirst, ha, Bool.false_eq_true, if_false]
    rw [ih (fun c hc => h c (List.mem_cons_of_mem a hc))]

lemma splitFirst_append {p : Char → Bool} {xs : List Char} {d : Char}
    (ys : List Char) (h : ∀ c ∈ xs, p c = false) (hd : p d = true) :
    splitFirst p (xs ++ d :: ys) = (xs, some ys) := by
  induction xs with
  | nil => simp [splitFirst, hd]
  | cons a t ih =>
    have ha := h a (List.mem_cons_self a t)
    have ih' := ih (fun c hc => h c (List.mem_cons_of_mem a hc))
    simp only [List.cons_append, splitFirst, ha, Bool.false_eq_true, if_false,
      List.append_eq, ih']

lemma getD_ne_of_forall {l : List Char} {x : Char}
    (h : ∀ c ∈ l, c ≠ x) (d : Char) (hd : d ≠ x) (i : Nat) :
    (l[i]?).getD d ≠ x := by
  cases hg : l[i]? with
  | none => simpa using hd
  | some c =>
    obtain ⟨hi, rfl⟩ := List.getElem?_eq_some.mp hg
    simpa using h _ (List.getElem_mem hi)

lemma underscoresOk_of_no_underscore {l : List Char}
    (h : ∀ c ∈ l, c ≠ '_') : underscoresOk l = true := by
  unfold underscoresOk
  rw [List.all_eq_true]
  intro i _
  have := getD_ne_of_forall h ' ' (by decide) i
  simp [this]

lemma filter_underscore_eq_self {l : List Char}
    (h : ∀ c ∈ l, c ≠ '_') : l.filter (fun c => !(c = '_')) = l := by
  rw [List.filter_eq_self]
  intro c hc
  simpa using h c hc

/-! ### Lemmas: parsing the printed form of a float -/

lemma pyFloatOfString_printed (n k : Nat) (hk : 0 < k) :
    pyFloatOfString ⟨printNatDigits n ++ 'e' :: '-' :: printNatDigits k⟩ =
      some (PyFloat.finite (mkRat n (10 ^ k))) := by
  set D := printNatDigits n with hDdef
  set K := printNatDigits k with hKdef
  set L := D ++ 'e' :: '-' :: K with hLdef
  have hDdig : ∀ c ∈ D, ∃ m, m < 10 ∧ c = digitChar m := fun c hc =>
    mem_printNatDigits c hc
  have hKdig : ∀ c ∈ K, ∃ m, m < 10 ∧ c = digitChar m := fun c hc =>
    mem_printNatDigits c hc
  have hDne : D ≠ [] := printNatDigits_ne_nil n
  have hKne : K ≠ [] := printNatDigits_ne_nil k
  have hDall : D.all Char.isDigit = true := printNatDigits_all_digit n
  have hKall : K.all Char.isDigit = true := printNatDigits_all_digit k
  obtain ⟨c0, D', hD0⟩ := List.exists_cons_of_ne_nil hDne
  obtain ⟨m0, hm0, hc0⟩ := hDdig c0 (by rw [hD0]; exact List.mem_cons_self _ _)
  obtain ⟨-, -, -, -, hplus0, hminus0, -, -, -, -, -, hlowi0, hlown0⟩ :=
    digitChar_props m0 hm0
  have hLmem : ∀ c ∈ L, c = 'e' ∨ c = '-' ∨ ∃ m, m < 10 ∧ c = digitChar m := by
    intro c hc
    rw [hLdef] at hc
    rcases List.mem_append.mp hc with h | h
    · exact Or.inr (Or.inr (hDdig c h))
    · rcases List.mem_cons.mp h with rfl | h
      · exact Or.inl rfl
      rcases List.mem_cons.mp h with rfl | h
      · exact Or.inr (Or.inl rfl)
      · exact Or.inr (Or.inr (hKdig c h))
  have hLws : ∀ c ∈ L, isPyWs c = false := by
    intro c hc
    rcases hLmem c hc with rfl | rfl | ⟨m, hm, rfl⟩
    · decide
    · decide
    · exact (digitChar_props m hm).2.1
  have hLund : ∀ c ∈ L, c ≠ '_' := by
    intro c hc
    rcases hLmem c hc with rfl | rfl | ⟨m, hm, rfl⟩
    · decide
    · decide
    · obtain ⟨-, -, -, -, -, -, -, -, -, hu, -⟩ := digitChar_props m hm
      exact hu
  have hLcons : L = c0 :: (D' ++ 'e' :: '-' :: K) := by
    rw [hLdef, hD0]; rfl
  have hLne : L ≠ [] := by rw [hLcons]; simp
  have hsplitSign : splitSign L = (1, L) := by
    rw [hLcons]
    simp only [splitSign]
    rw [if_neg (hc0 ▸ hplus0), if_neg (hc0 ▸ hminus0)]
  have hlowL : L.map Char.toLower =
      Char.toLower c0 :: (D' ++ 'e' :: '-' :: K).map Char.toLower := by
    rw [hLcons]; rfl
  have hninf : ¬(L.map Char.toLower = "inf".data) := by
    rw [hlowL]
    intro h
    exact (hc0 ▸ hlowi0) (List.cons.inj h).1
  have hninfty : ¬(L.map Char.toLower = "infinity".data) := by
    rw [hlowL]
    intro h
    exact (hc0 ▸ hlowi0) (List.cons.inj h).1
  have hnnan : ¬(L.map Char.toLower = "nan".data) := by
    rw [hlowL]
    intro h
    exact (hc0 ▸ hlown0) (List.cons.inj h).1
  have hcore : pyFloatParseCore L = some (mkRat n (10 ^ k)) := by
    have hpredD : ∀ c ∈ D, (fun c => decide (c = 'e') || decide (c = 'E')) c = false := by
      intro c hc
      obtain ⟨m, hm, rfl⟩ := hDdig c hc
      obtain ⟨-, -, -, -, -, -, he, hE, -⟩ := digitChar_props m hm
      simp only [decide_eq_false he, decide_eq_false hE, Bool.or_self]
    have hsfE : splitFirst (fun c => c = 'e' || c = 'E') L = (D, some ('-' :: K)) := by
      rw [hLdef]
      exact splitFirst_append _ hpredD (by decide)
    have hdotD : ∀ c ∈ D, (fun c => decide (c = '.')) c = false := by
      intro c hc
      obtain ⟨m, hm, rfl⟩ := hDdig c hc
      obtain ⟨-, -, -, -, -, -, -, -, hdot, -⟩ := digitChar_props m hm
      simpa using hdot
    have hsfDot : splitFirst (fun c => c = '.') D = (D, none) :=
      splitFirst_of_forall hdotD
    have hsignK : splitSign ('-' :: K) = (-1, K) := by
      simp [splitSign]
    have hKval : natFromDigits K = k := natFromDigits_printNatDigits k
    have hDval : natFromDigits D = n := natFromDigits_printNatDigits n
    have hKne' : (decide (K = [])) = false := decide_eq_false hKne
    have hDne' : (decide (D = [])) = false := decide_eq_false hDne
    unfold pyFloatParseCore
    simp only [hsfE, hsignK]
    simp only [hKne', Bool.not_false, hKall, Bool.and_self, Bool.true_and, if_true]
    simp only [hsfDot, Option.getD_none, List.any_nil, Bool.false_eq_true, if_false,
      hDall, List.all_nil, Bool.and_true, hDne', Bool.false_and, Bool.not_false,
      Bool.true_and, if_true, List.append_nil, hDval, hKval, List.length_nil]
    simp only [Nat.cast_zero, sub_zero, neg_mul, one_mul, neg_neg]
    rw [if_neg (by omega : ¬((0 : Int) ≤ -(k : Int))), Int.toNat_natCast]
  have hund : underscoresOk L = true := underscoresOk_of_no_underscore hLund
  have hfilt : L.filter (fun c => !(c = '_')) = L := filter_underscore_eq_self hLund
  unfold pyFloatOfString
  simp only [show (String.data ⟨L⟩) = L from rfl]
  simp only [trimChars_eq_self hLws, if_neg hLne, hsplitSign]
  simp only [decide_eq_false hninf, decide_eq_false hninfty, decide_eq_false hnnan,
    Bool.or_self, Bool.false_or, Bool.or_false, Bool.false_eq_true, if_false,
    if_neg hLne, hund, if_true, hfilt, hcore]
  rw [if_neg (show ¬(List.map Char.toLower L = ['n', 'a', 'n']) by simpa using hnnan)]

/-- A store-admissible salary (strictly positive, decimally exact)
round-trips through the CSV salary cell: `float(str(x))` recovers `x`. -/
lemma parse_floatRepr (x : PyFloat) (hok : salaryOk x = true)
    (hpos : pyLt (.finite 0) x = true) :
    pyFloatOfString (floatRepr x) = some x := by
  cases x with
  | inf => decide
  | neginf => simp [pyLt] at hpos
  | nan => simp [pyLt] at hpos
  | finite q =>
    have hq : (0 : ℚ) < q := by simpa [pyLt] using hpos
    have hnum : 0 < q.num := Rat.num_pos.mpr hq
    have hden : 0 < q.den := q.den_pos
    have hdvd : q.den ∣ 10 ^ q.den := by
      apply Nat.dvd_of_mod_eq_zero
      simpa [salaryOk] using hok
    have hdvd2 : q.den ∣ q.num.natAbs * 10 ^ q.den := Dvd.dvd.mul_left hdvd _
    have hrepr : floatRepr (.finite q) =
        ⟨printNatDigits (q.num.natAbs * 10 ^ q.den / q.den) ++
          'e' :: '-' :: printNatDigits q.den⟩ := by
      simp only [floatRepr]
      rw [if_neg (by omega : ¬(q.num < 0))]
      simp
    rw [hrepr, pyFloatOfString_printed _ _ hden]
    congr 2
    set N := q.num.natAbs * 10 ^ q.den / q.den with hN
    have hden0 : ((q.den : ℚ)) ≠ 0 := Nat.cast_ne_zero.mpr (by omega)
    have hten0 : ((10 : ℚ)) ^ q.den ≠ 0 := by positivity
    have habs : ((q.num.natAbs : ℚ)) = ((q.num : ℚ)) := by
      rw [Int.cast_natAbs]
      exact_mod_cast abs_of_pos hnum
    have hNden : (N : ℚ) * (q.den : ℚ) = (q.num : ℚ) * (10 : ℚ) ^ q.den := by
      have h := congrArg (Nat.cast : ℕ → ℚ) (Nat.div_mul_cancel hdvd2)
      push_cast at h
      rw [habs] at h
      exact h
    have hq_num : (q.num : ℚ) = q * (q.den : ℚ) :=
      (div_eq_iff hden0).mp (Rat.num_div_den q)
    rw [Rat.mkRat_eq_divInt, Rat.divInt_eq_div]
    push_cast
    rw [div_eq_iff hten0]
    apply mul_right_cancel₀ hden0
    rw [hNden, hq_num]
    ring

/-! ### Lemmas: the in-memory mapping -/

lemma findById_eq_some {st : Store} {i : String} {e : Employee}
    (h : findById st i = some e) : e ∈ st ∧ e.id = i := by
  refine ⟨List.mem_of_find?_eq_some h, ?_⟩
  have := List.find?_some h
  simpa using this

lemma findById_eq_none {st : Store} {i : String} :
    findById st i = none ↔ ∀ e ∈ st, e.id ≠ i := by
  unfold findById
  rw [List.find?_eq_none]
  simp

lemma findById_of_mem_nodup {st : Store} {e : Employee}
    (hnd : (st.map (fun x => x.id)).Nodup) (he : e ∈ st) :
    findById st e.id = some e := by
  induction st with
  | nil => cases he
  | cons a t ih =>
    rcases List.mem_cons.mp he with rfl | ht
    · simp [findById, List.find?_cons]
    · have hmem : e.id ∈ t.map (fun x => x.id) := List.mem_map_of_mem _ ht
      rw [List.map_cons] at hnd
      have hne : ¬(a.id = e.id) := fun hid => (List.nodup_cons.mp hnd).1 (hid ▸ hmem)
      have ih' := ih (List.nodup_cons.mp hnd).2 ht
      simp only [findById, List.find?_cons] at ih' ⊢
      simp only [decide_eq_false hne, Bool.false_eq_true, if_false]
      exact ih'

lemma findById_perm {st st' : Store} (hp : st.Perm st')
    (hnd : (st.map (fun x => x.id)).Nodup) (i : String) :
    findById st i = findById st' i := by
  have hnd' : (st'.map (fun x => x.id)).Nodup := ((hp.map _).nodup_iff).mp hnd
  cases h : findById st i with
  | some e =>
    obtain ⟨he, hid⟩ := findById_eq_some h
    rw [← hid]
    exact (findById_of_mem_nodup hnd' (hp.subset he)).symm
  | none =>
    rw [eq_comm, findById_eq_none]
    intro e he
    exact (findById_eq_none.mp h) e (hp.symm.subset he)

lemma mem_insertEmp {st : Store} {e x : Employee}
    (h : x ∈ insertEmp st e) : x ∈ st ∨ x = e := by
  unfold insertEmp at h
  split at h
  · rcases List.mem_map.mp h with ⟨r, hr, hx⟩
    by_cases hid : r.id = e.id
    · simp only [hid, if_true] at hx
      exact Or.inr hx.symm
    · simp only [hid, if_false] at hx
      exact Or.inl (hx ▸ hr)
  · rcases List.mem_append.mp h with h | h
    · exact Or.inl h
    · exact Or.inr (List.mem_singleton.mp h)

lemma find?_replace_self {st : Store} {e : Employee}
    (hany : st.any (fun r => r.id = e.id) = true) :
    (st.map (fun r => if r.id = e.id then e else r)).find?
      (fun x => decide (x.id = e.id)) = some e := by
  induction st with
  | nil => simp at hany
  | cons a t ih =>
    by_cases ha : a.id = e.id
    · simp [List.find?_cons, ha]
    · have hany' : t.any (fun r => r.id = e.id) = true := by
        simpa [List.any_cons, ha] using hany
      simp only [List.map_cons, if_neg ha, List.find?_cons, decide_eq_false ha]
      exact ih hany'

lemma find?_append_self {st : Store} {e : Employee}
    (hany : st.any (fun r => r.id = e.id) = false) :
    (st ++ [e]).find? (fun x => decide (x.id = e.id)) = some e := by
  induction st with
  | nil => simp [List.find?_cons]
  | cons a t ih =>
    rw [List.any_cons] at hany
    have ha : ¬(a.id = e.id) := by
      intro hx
      simp [hx] at hany
    have ht : t.any (fun r => r.id = e.id) = false := by
      simpa [ha] using hany
    simp only [List.cons_append, List.find?_cons, decide_eq_false ha]
    exact ih ht

lemma findById_insertEmp_self (st : Store) (e : Employee) :
    findById (insertEmp st e) e.id = some e := by
  unfold insertEmp findById
  by_cases hany : st.any (fun r => r.id = e.id) = true
  · rw [if_pos hany]
    exact find?_replace_self hany
  · rw [if_neg hany]
    exact find?_append_self (Bool.eq_false_iff.mpr hany)

lemma find?_replace_ne {st : Store} {e : Employee} {j : String} (hj : j ≠ e.id) :
    (st.map (fun r => if r.id = e.id then e else r)).find?
      (fun x => decide (x.id = j)) = st.find? (fun x => decide (x.id = j)) := by
  induction st with
  | nil => rfl
  | cons a t ih =>
    by_cases ha : a.id = e.id
    · have h1 : ¬(e.id = j) := fun h => hj h.symm
      have h2 : ¬(a.id = j) := by rw [ha]; exact h1
      simp only [List.map_cons, if_pos ha, List.find?_cons,
        decide_eq_false h1, decide_eq_false h2]
      exact ih
    · by_cases haj : a.id = j
      · have h2 : decide (a.id = j) = true := decide_eq_true haj
        simp only [List.map_cons, if_neg ha, List.find?_cons, h2]
      · simp only [List.map_cons, if_neg ha, List.find?_cons, decide_eq_false haj]
        exact ih

lemma find?_append_ne {st : Store} {e : Employee} {j : String} (hj : j ≠ e.id) :
    (st ++ [e]).find? (fun x => decide (x.id = j)) =
      st.find? (fun x => decide (x.id = j)) := by
  induction st with
  | nil =>
    have h1 : decide (e.id = j) = false := decide_eq_false (fun h => hj (Eq.symm h))
    simp [List.find?_cons, h1]
  | cons a t ih =>
    by_cases haj : a.id = j
    · have h2 : decide (a.id = j) = true := decide_eq_true haj
      simp only [List.cons_append, List.find?_cons, h2]
    · simp only [List.cons_append, List.find?_cons, decide_eq_false haj]
      exact ih

lemma findById_insertEmp_ne (st : Store) (e : Employee) {j : String}
    (hj : j ≠ e.id) : findById (insertEmp st e) j = findById st j := by
  unfold insertEmp findById
  by_cases hany : st.any (fun r => r.id = e.id) = true
  · rw [if_pos hany]
    exact find?_replace_ne hj
  · rw [if_neg hany]
    exact find?_append_ne hj

lemma insertEmp_mem_eq {st : Store} {e : Employee}
    (hnd : (st.map (fun x => x.id)).Nodup) (he : e ∈ st) :
    insertEmp st e = st := by
  have hany : st.any (fun r => r.id = e.id) = true := by
    rw [List.any_eq_true]
    exact ⟨e, he, by simp⟩
  unfold insertEmp
  rw [if_pos hany]
  clear hany
  induction st with
  | nil => rfl
  | cons a t ih =>
    rw [List.map_cons] at hnd ⊢
    obtain ⟨hhead, htail⟩ := List.nodup_cons.mp hnd
    by_cases ha : a.id = e.id
    · have hea : e = a := by
        rcases List.mem_cons.mp he with rfl | het
        · rfl
        · exact absurd (ha ▸ List.mem_map_of_mem _ het) hhead
      have htmap : ∀ r ∈ t, (if r.id = e.id then e else r) = r := by
        intro r hr
        apply if_neg
        intro hrid
        exact hhead (ha ▸ hrid ▸ List.mem_map_of_mem _ hr)
      rw [if_pos ha, List.map_congr_left htmap, List.map_id', hea]
    · have het : e ∈ t := by
        rcases List.mem_cons.mp he with rfl | het
        · exact absurd rfl ha
        · exact het
      rw [if_neg ha, ih htail het]

lemma findById_eraseEmp_self (st : Store) (i : String) :
    findById (eraseEmp st i) i = none := by
  rw [findById_eq_none]
  intro e he
  have h := List.mem_filter.mp he
  simpa using h.2

lemma mem_eraseEmp {st : Store} {i : String} {x : Employee}
    (h : x ∈ eraseEmp st i) : x ∈ st :=
  (List.mem_filter.mp h).1

/-! ### Lemmas: sorting and the save/load round trip -/

lemma insertSorted_perm (e : Employee) (l : List Employee) :
    (insertSorted e l).Perm (e :: l) := by
  induction l with
  | nil => exact List.Perm.refl _
  | cons x xs ih =>
    unfold insertSorted
    by_cases h : strLe e.id x.id = true
    · rw [if_pos h]
    · rw [if_neg h]
      exact List.Perm.trans (ih.cons x) (List.Perm.swap e x xs)

lemma sortById_perm (st : Store) : (sortById st).Perm st := by
  induction st with
  | nil => exact List.Perm.refl _
  | cons e t ih =>
    have h1 : sortById (e :: t) = insertSorted e (sortById t) := rfl
    rw [h1]
    exact List.Perm.trans (insertSorted_perm _ _) (ih.cons e)

lemma loadRows_saved {l : List Employee} (acc : Store)
    (h : ∀ e ∈ l, e.id ≠ "" ∧ pyFloatOfString (floatRepr e.salary) = some e.salary) :
    loadRows (l.map fun e =>
        (⟨e.id, e.name, e.position, floatRepr e.salary, e.email⟩ : CsvRow)) acc =
      l.foldl insertEmp acc := by
  induction l generalizing acc with
  | nil => rfl
  | cons e t ih =>
    obtain ⟨hid, hsal⟩ := h e (List.mem_cons_self e t)
    simp only [List.map_cons, loadRows, List.foldl_cons]
    rw [if_neg hid, hsal]
    exact ih _ (fun x hx => h x (List.mem_cons_of_mem e hx))

lemma foldl_insertEmp_fresh {l : List Employee} (acc : Store)
    (hnd : (l.map (fun e => e.id)).Nodup)
    (hfresh : ∀ e ∈ l, ∀ a ∈ acc, a.id ≠ e.id) :
    l.foldl insertEmp acc = acc ++ l := by
  induction l generalizing acc with
  | nil => simp
  | cons e t ih =>
    rw [List.map_cons] at hnd
    obtain ⟨hhead, htail⟩ := List.nodup_cons.mp hnd
    have hany : acc.any (fun r => r.id = e.id) = false := by
      rw [List.any_eq_false]
      intro a ha
      simpa using hfresh e (List.mem_cons_self e t) a ha
    have hins : insertEmp acc e = acc ++ [e] := by
      unfold insertEmp
      rw [hany]
      simp
    rw [List.foldl_cons, hins, ih (acc ++ [e]) htail ?fresh]
    · simp
    case fresh =>
      intro x hx a ha
      rcases List.mem_append.mp ha with ha | ha
      · exact hfresh x (List.mem_cons_of_mem e hx) a ha
      · rw [List.mem_singleton.mp ha]
        intro hid
        exact hhead (hid ▸ List.mem_map_of_mem _ hx)

lemma roundTrip_sort {st : Store} (hwf : wfStore st) :
    loadRows (saveRows st) [] = sortById st := by
  obtain ⟨hnd, -, hrec⟩ := hwf
  have hperm := sortById_perm st
  have hnd' : ((sortById st).map (fun e => e.id)).Nodup :=
    ((hperm.map _).nodup_iff).mpr hnd
  unfold saveRows
  rw [loadRows_saved _ ?hfields]
  · rw [foldl_insertEmp_fresh _ hnd' (by simp)]
    simp
  case hfields =>
    intro e he
    have hmem : e ∈ st := hperm.subset he
    obtain ⟨hid, -, -, -, hpos, hok⟩ := hrec e hmem
    exact ⟨hid, parse_floatRepr _ hok hpos⟩

/-! ### Lemmas: validators -/

lemma pyStrip_empty : pyStrip "" = "" := rfl

lemma ne_empty_of_strip {s : String} (h : pyStrip s ≠ "") : s ≠ "" := by
  intro hs
  exact h (hs ▸ pyStrip_empty)

lemma validate_salary_parse {s : String} {v : PyFloat} {eo : Option String}
    (h : validate_salary s = (true, some v, eo)) :
    pyFloatOfString s = some v ∧ pyLe v (.finite 0) = false := by
  unfold validate_salary at h
  by_cases h1 : (s = "" || pyStrip s = "") = true
  · rw [if_pos h1] at h
    cases h
  · rw [if_neg h1] at h
    cases hp : pyFloatOfString s with
    | none =>
      simp only [hp] at h
      cases h
    | some w =>
      simp only [hp] at h
      by_cases hle : pyLe w (.finite 0) = true
      · rw [if_pos hle] at h
        cases h
      · rw [if_neg hle] at h
        have hw : w = v := by
          have := congrArg (fun t => t.2.1) h
          simpa using this
        subst hw
        exact ⟨rfl, by simpa using hle⟩

lemma validate_salary_success {s : String} {v : PyFloat}
    (hne : pyStrip s ≠ "") (hp : pyFloatOfString s = some v)
    (hle : pyLe v (.finite 0) = false) :
    validate_salary s = (true, some v, none) := by
  have hs : ¬(s = "") := ne_empty_of_strip hne
  unfold validate_salary
  rw [if_neg (by simp [hs, hne])]
  rw [hp]
  simp [hle]

lemma validate_email_true {s : String} (h : (validate_email s).1 = true) :
    validate_email s = (true, none) := by
  unfold validate_email at h ⊢
  split at h
  · cases h
  · split at h
    · rename_i h1 h2
      rw [if_neg h1, if_pos h2]
    · cases h

lemma pyFloatOfString_strip (s : String) :
    pyFloatOfString (pyStrip s) = pyFloatOfString s := by
  unfold pyFloatOfString
  rw [pyStrip_data, trimChars_idem]

/-! ### Claim theorems -/

/-- C8: `validate_salary` fails on empty/whitespace input, on unparseable
input, and on a parsed value `<= 0`; on success it returns the parsed float.
Concretely `"0"`, `"-5"`, `"abc"`, `""` fail and `"50000.5"` yields
`50000.5`. -/
theorem validate_salary_spec :
    (∀ s : String, pyStrip s = "" → (validate_salary s).1 = false) ∧
    (∀ s : String, pyFloatOfString s = none → (validate_salary s).1 = false) ∧
    (∀ s : String, ∀ v, pyFloatOfString s = some v → pyLe v (.finite 0) = true →
      (validate_salary s).1 = false) ∧
    (∀ s : String, ∀ v, pyStrip s ≠ "" → pyFloatOfString s = some v →
      pyLe v (.finite 0) = false → validate_salary s = (true, some v, none)) ∧
    (validate_salary "0").1 = false ∧
    (validate_salary "-5").1 = false ∧
    (validate_salary "abc").1 = false ∧
    (validate_salary "").1 = false ∧
    validate_salary "50000.5" = (true, some (.finite (mkRat 100001 2)), none) := by
  refine ⟨?_, ?_, ?_, ?_, by decide, by decide, by decide, by decide, by decide⟩
  · intro s h
    unfold validate_salary
    rw [if_pos (by simp [h])]
  · intro s h
    by_cases hs : pyStrip s = ""
    · unfold validate_salary
      rw [if_pos (by simp [hs])]
    · unfold validate_salary
      rw [if_neg (by simp [ne_empty_of_strip hs, hs])]
      simp [h]
  · intro s v hp hle
    by_cases hs : pyStrip s = ""
    · unfold validate_salary
      rw [if_pos (by simp [hs])]
    · unfold validate_salary
      rw [if_neg (by simp [ne_empty_of_strip hs, hs])]
      simp [hp, hle]
  · intro s v hne hp hle
    exact validate_salary_success hne hp hle

/-- Closed instance of `validate_salary_spec`: the success clause at the
concrete input `50000.5`. -/
theorem validate_salary_spec_witness :
    validate_salary "50000.5" = (true, some (.finite (mkRat 100001 2)), none) :=
  validate_salary_spec.2.2.2.1 "50000.5" (.finite (mkRat 100001 2))
    (by decide) (by decide) (by decide)

/-- C9: `validate_email` fails on empty/whitespace input and otherwise
succeeds exactly when the stripped input fully matches the anchored email
regex; `a@b.com` passes while `not-an-email`, the empty string and `a@b`
fail. -/
theorem validate_email_spec :
    (∀ s : String, (validate_email s).1 = true ↔
      (pyStrip s ≠ "" ∧ emailMatches (pyStrip s).data = true)) ∧
    (validate_email "a@b.com").1 = true ∧
    (validate_email "not-an-email").1 = false ∧
    (validate_email "").1 = false ∧
    (validate_email "a@b").1 = false := by
  refine ⟨?_, by decide, by decide, by decide, by decide⟩
  intro s
  constructor
  · intro h
    unfold validate_email at h
    split at h
    · cases h
    · rename_i hcond
      split at h
      · rename_i hm
        refine ⟨?_, hm⟩
        intro hs
        exact hcond (by simp [hs])
      · cases h
  · rintro ⟨hne, hm⟩
    unfold validate_email
    rw [if_neg (by simp [ne_empty_of_strip hne, hne]), if_pos hm]

/-- Closed instance of `validate_email_spec` at `a@b.com`. -/
theorem validate_email_spec_witness :
    (validate_email "a@b.com").1 = true :=
  (validate_email_spec.1 "a@b.com").mpr ⟨by decide, by decide⟩

lemma validate_employee_id_dup {s : String} {ids : List String}
    (h : pyStrip s ∈ ids) : (validate_employee_id s ids).1 = false := by
  unfold validate_employee_id
  by_cases h1 : (s = "" || pyStrip s = "") = true
  · rw [if_pos h1]
  · rw [if_neg h1, if_pos h]

lemma validate_unique_email_dup {s : String} {emails : List String}
    (h : pyStrip s ∈ emails) : (validate_unique_email s emails).1 = false := by
  unfold validate_unique_email
  cases hve : validate_email s with
  | mk b eo =>
    cases b
    · rfl
    · simp only
      rw [if_pos h]

/-- C4: `add` with an identifier already present, or with an email already
stored for some record, is rejected (the validator fails, the operator is
re-prompted, no mutation occurs and the mapping is exactly as before). -/
theorem add_duplicate_rejected (st : Store) (idR nR pR sR eR : String) :
    (pyStrip idR ∈ st.map (fun e => e.id) →
      addEmployee st idR nR pR sR eR = none) ∧
    (pyStrip eR ∈ st.map (fun e => e.email) →
      addEmployee st idR nR pR sR eR = none) := by
  constructor
  · intro h
    have hid : (validate_employee_id (pyStrip idR) (st.map (fun e => e.id))).1 = false :=
      validate_employee_id_dup (by rw [pyStrip_idem]; exact h)
    simp only [addEmployee]
    simp [hid]
  · intro h
    have hem : (validate_unique_email (pyStrip eR) (st.map (fun e => e.email))).1 = false :=
      validate_unique_email_dup (by rw [pyStrip_idem]; exact h)
    simp only [addEmployee]
    by_cases h1 : (validate_employee_id (pyStrip idR) (st.map (fun e => e.id))).1 = true
    · by_cases h2 : (validate_required_field (pyStrip nR) "Name").1 = true
      · by_cases h3 : (validate_required_field (pyStrip pR) "Position").1 = true
        · cases hvs : validate_salary (pyStrip sR) with
          | mk b rest =>
            cases rest with
            | mk vo eo =>
              cases b
              · simp [h1, h2, h3, hvs]
              · cases vo with
                | none => simp [h1, h2, h3, hvs]
                | some v => simp [h1, h2, h3, hvs, hem]
        · simp [h1, h2, h3]
      · simp [h1, h2]
    · simp [h1]

/-- Closed instance of `add_duplicate_rejected`: adding `E1` again, and
adding a second record with `ana@x.com`, are both rejected. -/
theorem add_duplicate_rejected_witness :
    addEmployee [⟨"E1", "Ana", "Engineer", .finite 75000, "ana@x.com"⟩]
        "E1" "Bob" "Clerk" "100" "b@b.com" = none ∧
    addEmployee [⟨"E1", "Ana", "Engineer", .finite 75000, "ana@x.com"⟩]
        "E2" "Bob" "Clerk" "100" "ana@x.com" = none :=
  ⟨(add_duplicate_rejected _ "E1" "Bob" "Clerk" "100" "b@b.com").1 (by decide),
   (add_duplicate_rejected _ "E2" "Bob" "Clerk" "100" "ana@x.com").2 (by decide)⟩

/-- C6 counterexample: the confirmation input `yes` is not the exact token
`YES`, yet the record is deleted — the code compares
`input().strip().upper() == 'YES'`, so the claim "any confirmation input
other than the exact confirmation token leaves the store unchanged" is
false. -/
theorem delete_confirmation_counterexample :
    ("yes" : String) ≠ "YES" ∧
    deleteEmployee [⟨"E1", "Ana", "Engineer", .finite 75000, "ana@x.com"⟩]
        "E1" "yes" = [] ∧
    deleteEmployee [⟨"E1", "Ana", "Engineer", .finite 75000, "ana@x.com"⟩]
        "E1" "yes" ≠
      [⟨"E1", "Ana", "Engineer", .finite 75000, "ana@x.com"⟩] := by
  decide

/-- C6 (amended): for a store containing a record with the given identifier,
`delete` leaves the store unchanged whenever the stripped, uppercased
confirmation differs from `YES`, and removes the record (so `findById`
reports not found) whenever it equals `YES`. -/
theorem delete_confirmation_spec (st : Store) (idR confirmR : String)
    (e : Employee) (hfind : findById st (pyStrip idR) = some e) :
    (pyUpper (pyStrip confirmR) ≠ "YES" →
      deleteEmployee st idR confirmR = st) ∧
    (pyUpper (pyStrip confirmR) = "YES" →
      findById (deleteEmployee st idR confirmR) (pyStrip idR) = none) := by
  have hne : ¬(st.isEmpty = true) := by
    cases st with
    | nil => simp [findById] at hfind
    | cons a t => simp
  have hsome : (findById st (pyStrip idR)).isSome = true := by
    rw [hfind]; rfl
  constructor
  · intro h
    unfold deleteEmployee
    rw [if_neg hne, if_pos hsome, if_neg h]
  · intro h
    unfold deleteEmployee
    rw [if_neg hne, if_pos hsome, if_pos h]
    exact findById_eraseEmp_self st _

/-- Closed instance of `delete_confirmation_spec`: with confirmation `no`
the store is unchanged; with `YES` the record is gone. -/
theorem delete_confirmation_spec_witness :
    deleteEmployee [⟨"E1", "Ana", "Engineer", .finite 75000, "ana@x.com"⟩]
        "E1" "no" = [⟨"E1", "Ana", "Engineer", .finite 75000, "ana@x.com"⟩] ∧
    findById (deleteEmployee [⟨"E1", "Ana", "Engineer", .finite 75000, "ana@x.com"⟩]
        "E1" "YES") (pyStrip "E1") = none :=
  ⟨(delete_confirmation_spec _ "E1" "no"
      ⟨"E1", "Ana", "Engineer", .finite 75000, "ana@x.com"⟩ (by decide)).1 (by decide),
   (delete_confirmation_spec _ "E1" "YES"
      ⟨"E1", "Ana", "Engineer", .finite 75000, "ana@x.com"⟩ (by decide)).2 (by decide)⟩

/-- C5: evaluation of the code at the failing input.  `validate_salary`
accepts the salary string `nan` (because `float("nan") <= 0` is false), so an
`add` from the empty store stores a record whose salary is NaN, and NaN is
not strictly greater than zero — the stated store invariant fails, against
both the spec and the validator docstring ("a positive number"). -/
theorem salary_nan_accepted :
    validate_salary "nan" = (true, some PyFloat.nan, none) ∧
    runOps [Op.add "E1" "Ana" "Engineer" "nan" "ana@x.com"] =
      [⟨"E1", "Ana", "Engineer", PyFloat.nan, "ana@x.com"⟩] ∧
    pyLt (PyFloat.finite 0) PyFloat.nan = false := by
  decide

/-- C3 counterexample: a file whose second row has the non-numeric salary
`abc` aborts the load after the first row, and the mapping is left holding
that first row — not empty as the claim states. -/
theorem load_partial_counterexample :
    pyFloatOfString "abc" = none ∧
    (loadFromCsv (.present [⟨"E1", "Ana", "Engineer", "75000", "ana@x.com"⟩,
        ⟨"E2", "Bob", "Clerk", "abc", "bob@x.com"⟩])).1 =
      [⟨"E1", "Ana", "Engineer", .finite 75000, "ana@x.com"⟩] ∧
    (loadFromCsv (.present [⟨"E1", "Ana", "Engineer", "75000", "ana@x.com"⟩,
        ⟨"E2", "Bob", "Clerk", "abc", "bob@x.com"⟩])).1 ≠ [] := by
  decide

/-- C3 (amended): initialization behaviour.  An absent backing file yields an
empty mapping and a freshly created header-only file; any other open failure
reports the error and leaves the mapping empty; with a present file the rows
are processed in order — an empty-identifier row is skipped, a row with a
parseable salary is loaded, and a row with an unparseable salary aborts the
rest of the load, the mapping retaining exactly the rows loaded before it
(empty only when no row was loaded before the failure). -/
theorem load_from_csv_spec :
    (loadFromCsv .absent = ([], .present [])) ∧
    (loadFromCsv .unreadable = ([], .unreadable)) ∧
    (∀ (rows : List CsvRow) (r : CsvRow) (acc : Store), r.idF = "" →
      loadRows (r :: rows) acc = loadRows rows acc) ∧
    (∀ (rows : List CsvRow) (r : CsvRow) (acc : Store) (v : PyFloat),
      r.idF ≠ "" → pyFloatOfString r.salaryF = some v →
      loadRows (r :: rows) acc =
        loadRows rows (insertEmp acc ⟨r.idF, r.nameF, r.positionF, v, r.emailF⟩)) ∧
    (∀ (good : List CsvRow) (bad : CsvRow) (rest : List CsvRow) (acc : Store),
      bad.idF ≠ "" → pyFloatOfString bad.salaryF = none →
      loadRows (good ++ bad :: rest) acc = loadRows good acc) := by
  refine ⟨rfl, rfl, ?_, ?_, ?_⟩
  · intro rows r acc h
    conv_lhs => unfold loadRows
    rw [if_pos h]
  · intro rows r acc v h hv
    conv_lhs => unfold loadRows
    rw [if_neg h]
    simp only [hv]
  · intro good bad rest acc hid hsal
    induction good generalizing acc with
    | nil =>
      simp only [List.nil_append]
      unfold loadRows
      rw [if_neg hid]
      simp only [hsal]
    | cons r g ih =>
      simp only [List.cons_append]
      unfold loadRows
      by_cases h1 : r.idF = ""
      · rw [if_pos h1, if_pos h1]
        exact ih acc
      · rw [if_neg h1, if_neg h1]
        cases hp : pyFloatOfString r.salaryF with
        | none => simp only [hp]
        | some v =>
          simp only [hp]
          exact ih _

/-- Closed instance of `load_from_csv_spec`: the abort clause at the
concrete two-row file with a bad second salary. -/
theorem load_from_csv_spec_witness :
    loadRows ([⟨"E1", "Ana", "Engineer", "75000", "ana@x.com"⟩] ++
        ⟨"E2", "Bob", "Clerk", "abc", "bob@x.com"⟩ :: []) [] =
      loadRows [⟨"E1", "Ana", "Engineer", "75000", "ana@x.com"⟩] [] :=
  load_from_csv_spec.2.2.2.2 [⟨"E1", "Ana", "Engineer", "75000", "ana@x.com"⟩]
    ⟨"E2", "Bob", "Clerk", "abc", "bob@x.com"⟩ [] [] (by decide) (by decide)

/-- C10: when the file write fails (`writeOk = false`), every mutating
operation keeps its mutation in the in-memory mapping, leaves the backing
file with its previous content, and still reports success — the boolean
failure result of `_save_to_csv` is discarded by all three callers, so the
mapping and the file diverge silently. -/
theorem save_failure_ignored :
    (∀ (st : Store) (fs : FileState) (idR nR pR sR eR : String) (st' : Store),
      addEmployee st idR nR pR sR eR = some st' →
      addEmployeeWithSave false st fs idR nR pR sR eR = some ⟨st', fs, true⟩) ∧
    (∀ (st : Store) (fs : FileState) (idR nR pR sR eR : String) (st' : Store),
      updateEmployee st idR nR pR sR eR = some st' →
      updateEmployeeWithSave false st fs idR nR pR sR eR = some ⟨st', fs, true⟩) ∧
    (∀ (st : Store) (fs : FileState) (idR cR : String) (e : Employee),
      findById st (pyStrip idR) = some e → pyUpper (pyStrip cR) = "YES" →
      deleteEmployeeWithSave false st fs idR cR =
        ⟨eraseEmp st (pyStrip idR), fs, true⟩) := by
  refine ⟨?_, ?_, ?_⟩
  · intro st fs idR nR pR sR eR st' h
    unfold addEmployeeWithSave
    rw [h]
    rfl
  · intro st fs idR nR pR sR eR st' h
    unfold updateEmployeeWithSave
    rw [h]
    rfl
  · intro st fs idR cR e hfind hc
    have hne : ¬(st.isEmpty = true) := by
      cases st with
      | nil => simp [findById] at hfind
      | cons a t => simp
    have hsome : (findById st (pyStrip idR)).isSome = true := by
      rw [hfind]; rfl
    unfold deleteEmployeeWithSave
    rw [if_neg hne, if_pos hsome, if_pos hc]
    rfl

/-- Closed instance of `save_failure_ignored`: an `add` whose save fails
still reports success, keeps the record in memory and leaves the file
holding only its old (header) content. -/
theorem save_failure_ignored_witness :
    addEmployeeWithSave false [] (.present []) "E1" "Ana" "Engineer" "75000" "ana@x.com" =
      some ⟨[⟨"E1", "Ana", "Engineer", .finite 75000, "ana@x.com"⟩], .present [], true⟩ :=
  save_failure_ignored.1 [] (.present []) "E1" "Ana" "Engineer" "75000" "ana@x.com"
    [⟨"E1", "Ana", "Engineer", .finite 75000, "ana@x.com"⟩] (by decide)

/-- C1: whenever `add` accepts the supplied values, a `findById` with the
same (stripped) identifier returns a record whose ID, Name, Position and
Email are the stripped supplied values and whose Salary is the float parsed
from the supplied salary string. -/
theorem add_then_find (st : Store) (idR nR pR sR eR : String) (st' : Store)
    (h : addEmployee st idR nR pR sR eR = some st') :
    ∃ v, pyFloatOfString sR = some v ∧
      findById st' (pyStrip idR) =
        some ⟨pyStrip idR, pyStrip nR, pyStrip pR, v, pyStrip eR⟩ := by
  simp only [addEmployee] at h
  by_cases h1 : (validate_employee_id (pyStrip idR) (st.map (fun e => e.id))).1 = true
  swap
  · simp [h1] at h
  by_cases h2 : (validate_required_field (pyStrip nR) "Name").1 = true
  swap
  · simp [h1, h2] at h
  by_cases h3 : (validate_required_field (pyStrip pR) "Position").1 = true
  swap
  · simp [h1, h2, h3] at h
  cases hvs : validate_salary (pyStrip sR) with
  | mk b rest =>
    cases rest with
    | mk vo eo =>
      cases b
      · simp [h1, h2, h3, hvs] at h
      · cases vo with
        | none => simp [h1, h2, h3, hvs] at h
        | some v =>
          by_cases h5 :
            (validate_unique_email (pyStrip eR) (st.map (fun e => e.email))).1 = true
          swap
          · simp [h1, h2, h3, hvs, h5] at h
          simp only [h1, h2, h3, hvs, h5, if_true] at h
          obtain ⟨hp, -⟩ := validate_salary_parse hvs
          rw [pyFloatOfString_strip] at hp
          refine ⟨v, hp, ?_⟩
          have hst : st' =
              insertEmp st ⟨pyStrip idR, pyStrip nR, pyStrip pR, v, pyStrip eR⟩ := by
            cases h
            rfl
          rw [hst]
          exact findById_insertEmp_self st _

/-- Closed instance of `add_then_find` on the empty store with the
spec’s example field values. -/
theorem add_then_find_witness :
    ∃ v, pyFloatOfString "75000" = some v ∧
      findById [⟨"E1", "Ana", "Engineer", .finite 75000, "ana@x.com"⟩] (pyStrip "E1") =
        some ⟨pyStrip "E1", pyStrip "Ana", pyStrip "Engineer", v, pyStrip "ana@x.com"⟩ :=
  add_then_find [] "E1" "Ana" "Engineer" "75000" "ana@x.com"
    [⟨"E1", "Ana", "Engineer", .finite 75000, "ana@x.com"⟩] (by decide)

/-- C7: for a record present in a store with distinct identifiers,
`update` with every field blank leaves the store exactly unchanged;
`update` with only a non-blank name changes only the Name field of that
record and no other record; and email uniqueness is checked only against the
other records, so re-supplying the record's own email succeeds and changes
nothing. -/
theorem update_frame_spec (st : Store) (idR : String) (e : Employee)
    (hnd : (st.map (fun x => x.id)).Nodup)
    (hfind : findById st (pyStrip idR) = some e) :
    (∀ bn bp bs be : String, pyStrip bn = "" → pyStrip bp = "" →
      pyStrip bs = "" → pyStrip be = "" →
      updateEmployee st idR bn bp bs be = some st) ∧
    (∀ nR bp bs be : String, pyStrip nR ≠ "" → pyStrip bp = "" →
      pyStrip bs = "" → pyStrip be = "" →
      updateEmployee st idR nR bp bs be =
        some (insertEmp st ⟨pyStrip idR, pyStrip nR, e.position, e.salary, e.email⟩) ∧
      findById (insertEmp st ⟨pyStrip idR, pyStrip nR, e.position, e.salary, e.email⟩)
          (pyStrip idR) =
        some ⟨pyStrip idR, pyStrip nR, e.position, e.salary, e.email⟩ ∧
      (∀ j, j ≠ pyStrip idR →
        findById (insertEmp st ⟨pyStrip idR, pyStrip nR, e.position, e.salary, e.email⟩) j =
          findById st j)) ∧
    (∀ bn bp bs : String, pyStrip bn = "" → pyStrip bp = "" → pyStrip bs = "" →
      (validate_email e.email).1 = true → pyStrip e.email = e.email →
      (∀ x ∈ st, x.id ≠ pyStrip idR → x.email ≠ e.email) →
      updateEmployee st idR bn bp bs e.email = some st) := by
  obtain ⟨hmem, hid⟩ := findById_eq_some hfind
  have hne : ¬(st.isEmpty = true) := by
    cases st with
    | nil => simp [findById] at hfind
    | cons a t => simp
  have heta : (⟨pyStrip idR, e.name, e.position, e.salary, e.email⟩ : Employee) = e := by
    rw [← hid]
  refine ⟨?_, ?_, ?_⟩
  · intro bn bp bs be h1 h2 h3 h4
    simp only [updateEmployee]
    rw [if_neg hne]
    simp only [hfind, getOptionalStr, getOptionalSalary, h1, h2, h3, h4, if_true]
    rw [heta, insertEmp_mem_eq hnd hmem]
  · intro nR bp bs be hn h2 h3 h4
    have hv : (validate_required_field (pyStrip nR) "Name").1 = true := by
      unfold validate_required_field
      rw [if_neg (by simp [pyStrip_idem, hn])]
    have hopt : getOptionalStr nR e.name
        (fun v => (validate_required_field v "Name").1) = some (pyStrip nR) := by
      unfold getOptionalStr
      rw [if_neg hn, if_pos hv]
    refine ⟨?_, ?_, ?_⟩
    · simp only [updateEmployee]
      rw [if_neg hne]
      simp only [hfind, hopt]
      simp only [getOptionalStr, getOptionalSalary, h2, h3, h4, if_true]
    · exact findById_insertEmp_self st _
    · intro j hj
      exact findById_insertEmp_ne st _ hj
  · intro bn bp bs h1 h2 h3 hve hstr hothers
    have hene : e.email ≠ "" := by
      intro hz
      rw [hz] at hve
      exact absurd hve (by decide)
    have hnotin : pyStrip e.email ∉
        ((st.filter (fun x => !(x.id = pyStrip idR))).map (fun x => x.email)) := by
      rw [hstr]
      intro hmem'
      obtain ⟨x, hx, hxe⟩ := List.mem_map.mp hmem'
      obtain ⟨hxst, hxid⟩ := List.mem_filter.mp hx
      exact hothers x hxst (by simpa using hxid) hxe
    have hv : (validate_unique_email e.email
        ((st.filter (fun x => !(x.id = pyStrip idR))).map (fun x => x.email))).1 = true := by
      unfold validate_unique_email
      rw [validate_email_true hve]
      simp only
      rw [if_neg hnotin]
    have hopt : getOptionalStr e.email e.email
        (fun v => (validate_unique_email v
          ((st.filter (fun x => !(x.id = pyStrip idR))).map (fun x => x.email))).1) =
        some e.email := by
      unfold getOptionalStr
      rw [hstr, if_neg hene, if_pos hv]
    simp only [updateEmployee]
    rw [if_neg hne]
    simp only [hfind, hopt]
    simp only [getOptionalStr, getOptionalSalary, h1, h2, h3, if_true]
    rw [heta, insertEmp_mem_eq hnd hmem]

/-- Closed instance of `update_frame_spec` on a two-record store: the
all-blank update, the name-only update and the own-email update. -/
theorem update_frame_spec_witness :
    updateEmployee [⟨"E1", "Ana", "Engineer", .finite 75000, "ana@x.com"⟩]
        "E1" "" "" "" "" = some [⟨"E1", "Ana", "Engineer", .finite 75000, "ana@x.com"⟩] ∧
    updateEmployee [⟨"E1", "Ana", "Engineer", .finite 75000, "ana@x.com"⟩]
        "E1" "" "" "" "ana@x.com" =
      some [⟨"E1", "Ana", "Engineer", .finite 75000, "ana@x.com"⟩] :=
  ⟨(update_frame_spec [⟨"E1", "Ana", "Engineer", .finite 75000, "ana@x.com"⟩] "E1"
      ⟨"E1", "Ana", "Engineer", .finite 75000, "ana@x.com"⟩
      (by decide) (by decide)).1 "" "" "" "" (by decide) (by decide) (by decide) (by decide),
   (update_frame_spec [⟨"E1", "Ana", "Engineer", .finite 75000, "ana@x.com"⟩] "E1"
      ⟨"E1", "Ana", "Engineer", .finite 75000, "ana@x.com"⟩
      (by decide) (by decide)).2.2 "" "" "" (by decide) (by decide) (by decide)
      (by decide) (by decide) (by decide)⟩

/-- C2: for any store satisfying the data-model invariants, saving to the
backing file and re-initializing from that same file yields a store mapping
every identifier to the same record — identical record content up to
insertion order (the file is written sorted by identifier). -/
theorem save_load_round_trip (st : Store) (hwf : wfStore st) :
    ∀ i, findById ((loadFromCsv (.present (saveRows st))).1) i = findById st i := by
  intro i
  have h1 : (loadFromCsv (.present (saveRows st))).1 = loadRows (saveRows st) [] := rfl
  rw [h1, roundTrip_sort hwf]
  have hperm := sortById_perm st
  have hnd : ((sortById st).map (fun x => x.id)).Nodup :=
    ((hperm.map _).nodup_iff).mpr hwf.1
  exact findById_perm hperm hnd i

/-- Closed instance of `save_load_round_trip` on a two-record store with a
fractional salary. -/
theorem save_load_round_trip_witness :
    wfStore [⟨"E1", "Ana", "Engineer", .finite 75000, "ana@x.com"⟩,
      ⟨"E0", "Bob", "Clerk", .finite (mkRat 100001 2), "bob@x.com"⟩] ∧
    findById ((loadFromCsv (.present (saveRows
        [⟨"E1", "Ana", "Engineer", .finite 75000, "ana@x.com"⟩,
         ⟨"E0", "Bob", "Clerk", .finite (mkRat 100001 2), "bob@x.com"⟩]))).1) "E0" =
      findById [⟨"E1", "Ana", "Engineer", .finite 75000, "ana@x.com"⟩,
        ⟨"E0", "Bob", "Clerk", .finite (mkRat 100001 2), "bob@x.com"⟩] "E0" :=
  ⟨by decide, save_load_round_trip _ (by decide) "E0"⟩

end EmployeeManager
